import Mathlib

/-!
Shallow embedding of the DWT invisible-watermark engine from
`backend/app/services/invisible_watermark.py` (the full-subband,
magnitude-scan variant, which the design notes designate as the engine).

Numeric coefficients are modelled as exact rationals; pixel and payload
byte values as naturals.  File-system state and I/O outcomes are passed
explicitly as environment records, so every operation is a total
computable function of its inputs.
-/

namespace InvisibleWatermark

/-- Engine-wide embedding strength, `self.alpha = 100` in `__init__`. -/
def alpha : ℚ := 100

/-- Code: `effective_alpha = self.alpha * 0.5` (embed_watermark line 260). -/
def effective_alpha : ℚ := alpha * (1/2)

/-- The increment added to one LL coefficient for a nonzero payload cell:
`add_value = min(effective_alpha * watermark_resized[i, j], original_value * 0.2)`
(embed_watermark lines 272-275). -/
def addValue (cell : ℕ) (orig : ℚ) : ℚ :=
  min (effective_alpha * cell) (orig * (1/5))

/-- The LL sub-band after the embedding double loop (embed_watermark
lines 251-277).  `llh × llw` is the sub-band shape, `wmh × wmw` the shape
of the resized payload matrix `wm`.  The loop writes each target cell at
most once, so it is modelled as a pointwise function: a cell inside the
centred window with a positive payload value receives `addValue`, every
other cell is returned unchanged. -/
def embedLL (llh llw : ℕ) (ll : ℕ → ℕ → ℚ) (wmh wmw : ℕ) (wm : ℕ → ℕ → ℕ)
    (r c : ℕ) : ℚ :=
  let h_offset := (llh - wmh) / 2
  let w_offset := (llw - wmw) / 2
  let h_end := min llh (h_offset + wmh)
  let w_end := min llw (w_offset + wmw)
  if h_offset ≤ r ∧ r < h_end ∧ w_offset ≤ c ∧ c < w_end then
    if 0 < wm (r - h_offset) (c - w_offset) then
      ll r c + addValue (wm (r - h_offset) (c - w_offset)) (ll r c)
    else ll r c
  else ll r c

/-- The pixel-affecting part of `embed_watermark` as a function of the
`alpha` keyword argument of the method (line 165, "no longer used, kept
for API compatibility"): the body never reads it and uses `self.alpha`
via `effective_alpha` instead. -/
def embedWatermarkPixels (alphaArg : ℚ) (llh llw : ℕ) (ll : ℕ → ℕ → ℚ)
    (wmh wmw : ℕ) (wm : ℕ → ℕ → ℕ) : ℕ → ℕ → ℚ :=
  match alphaArg with
  | _ => embedLL llh llw ll wmh wmw wm

/-- The `"alpha"` field written into the persisted metadata record
(embed_watermark line 310: `"alpha": self.alpha`), as a function of the
method's `alpha` argument. -/
def metadataAlphaField (alphaArg : ℚ) : ℚ :=
  match alphaArg with
  | _ => alpha

/-- The LL (approximation) sub-band `coeffs[0]` of the single-level haar
`wavedec2` applied to a pixel matrix `x` (pixel values are nonnegative
byte samples of the blue channel): `cA[i][j]` is the windowed sum of a
2×2 pixel block divided by 2.  For even image dimensions this is exactly
what `pywt.wavedec2(…, 'haar', level=1)` computes. -/
def haarLL (x : ℕ → ℕ → ℕ) (i j : ℕ) : ℚ :=
  ((x (2*i) (2*j) + x (2*i) (2*j+1) + x (2*i+1) (2*j) + x (2*i+1) (2*j+1) : ℕ) : ℚ) / 2

/-- A low-frequency sub-band together with its shape, the input of the
blind signal extraction (extract_watermark lines 557 onward). -/
structure BlindInput where
  llh : ℕ
  llw : ℕ
  ll : ℕ → ℕ → ℚ

/-- The sub-band of an `h × w` image with even dimensions, via the haar
decomposition of its pixel matrix (`coeffs[0].shape = (h/2, w/2)`). -/
def llOfImage (h w : ℕ) (x : ℕ → ℕ → ℕ) : BlindInput :=
  ⟨h / 2, w / 2, haarLL x⟩

/-- Estimated payload-matrix side length
`wm_size = min(32, ll_band.shape[0] // 2, ll_band.shape[1] // 2)`
(extract_watermark line 560). -/
def wmSize (llh llw : ℕ) : ℕ :=
  min 32 (min (llh / 2) (llw / 2))

/-- Row offset of the centred read window (extract_watermark line 563). -/
def hOff (b : BlindInput) : ℕ :=
  (b.llh - wmSize b.llh b.llw) / 2

/-- Column offset of the centred read window (extract_watermark line 564). -/
def wOff (b : BlindInput) : ℕ :=
  (b.llw - wmSize b.llh b.llw) / 2

/-- Byte recovered from one coefficient that passed the threshold:
`byte_val = max(0, min(255, int(extracted_value / self.alpha)))`
(extract_watermark line 576; the Python `int` truncates, which on the
positive values accepted by the threshold is the floor). -/
def byteOfCoeff (v : ℚ) : ℕ :=
  (max 0 (min 255 ⌊v / alpha⌋)).toNat

/-- The recovered matrix `extracted_wm` of the blind extraction
(extract_watermark lines 567-577): inside the centred `wm_size` window a
coefficient strictly above `alpha/2` contributes its clamped quotient,
every other cell stays zero. -/
def extractedWM (b : BlindInput) (i j : ℕ) : ℕ :=
  let s := wmSize b.llh b.llw
  if i < s ∧ j < s ∧ hOff b + i < b.llh ∧ wOff b + j < b.llw then
    let v := b.ll (hOff b + i) (wOff b + j)
    if alpha / 2 < v then byteOfCoeff v else 0
  else 0

/-- Index set of the recovered matrix cells. -/
def cellIdx (s : ℕ) : Finset (ℕ × ℕ) :=
  Finset.range s ×ˢ Finset.range s

/-- Code: `non_zero_pixels = np.count_nonzero(extracted_wm)` (line 580). -/
def nonZeroCount (b : BlindInput) : ℕ :=
  ((cellIdx (wmSize b.llh b.llw)).filter fun p => extractedWM b p.1 p.2 ≠ 0).card

/-- Code: `signal_power = np.sum(np.square(extracted_wm))` (line 585).
`extracted_wm` is a uint8 matrix (line 567), so `np.square` wraps each
cell modulo 256 before `np.sum` accumulates the (unwrapped) total. -/
def signalPower (b : BlindInput) : ℕ :=
  ∑ p ∈ cellIdx (wmSize b.llh b.llw), (extractedWM b p.1 p.2) ^ 2 % 256

/-- Named after the spec's words "mean squared recovered value", for
comparison with the code's quantity: the total of the true, unwrapped
squares of the recovered bytes. -/
def specSignalPower (b : BlindInput) : ℕ :=
  ∑ p ∈ cellIdx (wmSize b.llh b.llw), (extractedWM b p.1 p.2) ^ 2

/-- The spec-worded mean squared recovered value (same size guard as
the code's average). -/
def specAverageSignal (b : BlindInput) : ℚ :=
  let s := wmSize b.llh b.llw
  if 0 < s * s then (specSignalPower b : ℚ) / (s * s : ℕ) else 0

/-- Code: `average_signal = signal_power / total_pixels if total_pixels > 0 else 0`
(line 587). -/
def averageSignal (b : BlindInput) : ℚ :=
  let s := wmSize b.llh b.llw
  if 0 < s * s then (signalPower b : ℚ) / (s * s : ℕ) else 0

/-- The two-threshold blind detection decision (lines 583 and 590):
`non_zero_pixels > wm_size * wm_size * 0.25` and `average_signal > 50`. -/
def blindHit (b : BlindInput) : Bool :=
  let s := wmSize b.llh b.llw
  decide ((s * s : ℕ) * (1/4 : ℚ) < (nonZeroCount b : ℚ)) &&
    decide ((50 : ℚ) < averageSignal b)

/-- Confidence of a positive blind detection (line 636):
`min(0.8, non_zero_pixels / (wm_size * wm_size))`. -/
def blindConfidence (b : BlindInput) : ℚ :=
  let s := wmSize b.llh b.llw
  min (4/5) ((nonZeroCount b : ℚ) / ((s * s : ℕ) : ℚ))

/-- The result dictionary built by `extract_watermark` (lines 347-355). -/
structure ExtractResult where
  success : Bool
  detected : Bool
  watermark_text : String
  watermark_type : Option String
  watermark_image_url : Option String
  confidence : ℚ
  message : String
deriving DecidableEq

/-- Initial value of the result dictionary (lines 347-355). -/
def initResult : ExtractResult :=
  ⟨false, false, "", none, none, 0, ""⟩

/-- A parsed metadata record, as read from the sidecar file or the file
trailer.  `imageUrl`/`backupUrl`/`text` are `none` when the JSON object
lacks the corresponding key (`watermark_image_url`, `backup_image_url`,
`watermark_text`). -/
structure MetaRec where
  kind : String
  imageUrl : Option String
  backupUrl : Option String
  text : Option String

/-- Observable file-system state used by URL resolution: whether a file
name exists under the static directory, and under the processed
directory. -/
structure FileSys where
  staticExists : String → Bool
  processedExists : String → Bool

/-- Code: `url.replace("/static/", "")` (lines 381, 396, …). -/
def stripStatic (u : String) : String :=
  u.replace ("/static/") ("")

/-- Resolution of a backup URL (lines 395-410): the backup counts as
found if its file exists in the static directory, or in the processed
directory (in which case the code copies it into the static directory
before the re-check, so the net decision is the disjunction). -/
def backupResolves (fs : FileSys) (u : String) : Bool :=
  fs.staticExists (stripStatic u) || fs.processedExists (stripStatic u)

/-- Environment of one `extract_watermark` call: parsed sidecar metadata
(`none` when missing or unparseable), parsed trailer metadata (`none`
when the marker is absent or the JSON after it unparseable), whether
`cv2.imread(image_path)` succeeds, the LL sub-band the DWT of the blue
channel yields, and the generated file name of a blind-extracted
watermark image. -/
structure ExtractEnv where
  imagePath : String
  fs : FileSys
  sidecar : Option MetaRec
  trailer : Option MetaRec
  imgReadable : Bool
  blind : BlindInput
  extractedName : String

/-- Step 1 of `extract_watermark` (lines 360-433): the sidecar metadata
file.  `.inl r` models an early `return r`; `.inr r` models falling
through to the trailer step with the mutated result dictionary `r`. -/
def sidecarStep (env : ExtractEnv) (r : ExtractResult) :
    ExtractResult ⊕ ExtractResult :=
  match env.sidecar with
  | none => .inr r
  | some m =>
    if m.kind = "image" then
      let r := { r with watermark_type := some ("image") }
      let originalUrl := m.imageUrl.getD ("")
      let backupUrl := m.backupUrl.getD ("")
      if originalUrl ≠ "" then
        if env.fs.staticExists (stripStatic originalUrl) then
          .inl { r with watermark_image_url := some originalUrl,
                        detected := true, success := true, confidence := 99/100,
                        message := "成功提取到原始图像水印" }
        else if backupUrl ≠ "" ∧ backupResolves env.fs backupUrl then
          .inl { r with watermark_image_url := some backupUrl,
                        detected := true, success := true, confidence := 95/100,
                        message := "使用备份图像水印恢复成功" }
        else .inr r
      else .inr r
    else if m.kind = "text" then
      .inl { r with watermark_text := m.text.getD (""), watermark_type := some ("text"),
                    detected := true, success := true, confidence := 99/100 }
    else .inr r

/-- Step 2 of `extract_watermark` (lines 435-535): the metadata embedded
after the trailer marker at the end of the image file.  Same resolution
logic as the sidecar with lower confidences, plus the fallback branches
for a record whose `watermark_type` is neither `"image"` nor `"text"`
(lines 505-533). -/
def trailerStep (env : ExtractEnv) (r : ExtractResult) :
    ExtractResult ⊕ ExtractResult :=
  match env.trailer with
  | none => .inr r
  | some m =>
    if m.kind = "image" then
      let r := { r with watermark_type := some ("image") }
      let originalUrl := m.imageUrl.getD ("")
      let backupUrl := m.backupUrl.getD ("")
      if originalUrl ≠ "" then
        if env.fs.staticExists (stripStatic originalUrl) then
          .inl { r with watermark_image_url := some originalUrl,
                        detected := true, success := true, confidence := 95/100,
                        message := "成功提取到原始图像水印" }
        else if backupUrl ≠ "" ∧ backupResolves env.fs backupUrl then
          .inl { r with watermark_image_url := some backupUrl,
                        detected := true, success := true, confidence := 9/10,
                        message := "使用备份图像水印恢复成功" }
        else .inr r
      else .inr r
    else if m.kind = "text" then
      .inl { r with watermark_text := m.text.getD (""), watermark_type := some ("text"),
                    detected := true, success := true, confidence := 95/100 }
    else
      match m.imageUrl with
      | some u =>
        let r := { r with watermark_type := some ("image"),
                          watermark_image_url := some u }
        if env.fs.staticExists (stripStatic u) then
          .inl { r with detected := true, success := true, confidence := 9/10,
                        message := "成功提取到图像水印" }
        else .inr r
      | none =>
        match m.text with
        | some t =>
          if t ≠ "" then
            .inl { r with watermark_text := t, watermark_type := some ("text"),
                          detected := true, success := true, confidence := 9/10 }
          else .inr r
        | none => .inr r

/-- Step 3 of `extract_watermark` (lines 537-649): blind signal
extraction, reached only when both metadata steps fell through.  An
unreadable image returns the fall-through result with only the message
set (line 541-544, `success` still false); otherwise a positive blind
hit returns the detection, and the final branch reports the successful
negative result (lines 644-649). -/
def blindStep (env : ExtractEnv) (r : ExtractResult) : ExtractResult :=
  if env.imgReadable then
    if blindHit env.blind then
      { r with watermark_image_url := some ("/static/" ++ env.extractedName),
               watermark_type := some ("image"), detected := true, success := true,
               confidence := blindConfidence env.blind }
    else
      { r with detected := false, success := true,
               message := "未检测到有效的隐式水印" }
  else
    { r with message := "无法读取图像: " ++ env.imagePath }

/-- Model of `extract_watermark` (lines 337-655): the three recovery sources in
strict order, first early return wins. -/
def extract_watermark (env : ExtractEnv) : ExtractResult :=
  match sidecarStep env initResult with
  | .inl r => r
  | .inr r₁ =>
    match trailerStep env r₁ with
    | .inl r => r
    | .inr r₂ => blindStep env r₂

/-- Outcome of one fallible I/O action, given whether it succeeds. -/
def runWrite (ok : Bool) : Except Unit Unit :=
  if ok then .ok () else .error ()

/-- The metadata persistence phase of `embed_watermark` after the
watermarked image was saved (lines 315-329): the sidecar write
(`open(metadata_path, "w")` + `json.dump`, lines 316-319) has no
exception handler of its own, while the trailer append (lines 322-329)
is wrapped in `try/except` and its failure only logged. -/
def persistMetadataPhase (sidecarOk trailerOk : Bool) : Except Unit Unit := do
  runWrite sidecarOk
  match runWrite trailerOk with
  | .ok _ => pure ()
  | .error _ => pure ()

/-- The value `embed_watermark` produces after the image was computed
and saved: the persistence phase runs under the method-wide
`try/except` (lines 333-335) which re-raises, so a failure there
escapes instead of returning the output path (line 331). -/
def embedReturn (sidecarOk trailerOk : Bool) (outputPath : String) :
    Except Unit String :=
  match persistMetadataPhase sidecarOk trailerOk with
  | .ok _ => .ok outputPath
  | .error e => .error e

/-- Environment of `_prepare_watermark_data`: whether
`os.path.exists(p)` holds and whether `cv2.imread(p)` decodes, per
path. -/
structure PrepareEnv where
  pathExists : String → Bool
  imreadOk : String → Bool

/-- The `watermark_type` metadata of the text/none tail of
`_prepare_watermark_data` (lines 121-158): reached with no image path,
it yields `"text"` whenever a text (even empty) was supplied and
`"none"` otherwise. -/
def prepareKindText : Option String → String
  | some _ => "text"
  | none => "none"

/-- The `watermark_type` metadata selected by `_prepare_watermark_data`
(lines 49-158): an image path that is non-empty, exists and decodes
wins; an undecodable image falls back to the recursive text-only call
(line 59); otherwise the text/none tail decides. -/
def prepareKind (env : PrepareEnv) (watermark_text : Option String)
    (watermark_image_path : Option String) : String :=
  match watermark_image_path with
  | some p =>
    if p ≠ "" ∧ env.pathExists p = true then
      if env.imreadOk p = true then ("image")
      else prepareKindText watermark_text
    else prepareKindText watermark_text
  | none => prepareKindText watermark_text

/-- UTF-8 byte sequence of the payload text
(`text_bytes = watermark_text.encode('utf-8')`, line 128). -/
def textBytes (s : String) : List ℕ :=
  (s.toUTF8.data.toList).map (fun b => b.toNat)

/-- Code: `center_start = (size - text_len) // 2 if text_len < size else 0`
(line 139). -/
def centerStart (size text_len : ℕ) : ℕ :=
  if text_len < size then (size - text_len) / 2 else 0

/-- The payload matrix built by the text path of
`_prepare_watermark_data` (lines 131-145): byte `i` of the UTF-8
encoding is written to the diagonal cell `(center_start + i, _)` for
`i < min(text_len, size)` subject to the `row < size` guard, every
other cell of the `size × size` zero matrix stays zero.  The loop
writes distinct cells, so it is modelled pointwise. -/
def textMatrix (s : String) (max_size : ℕ) (r c : ℕ) : ℕ :=
  let size := min max_size 32
  let bs := textBytes s
  let cs := centerStart size bs.length
  if r = c ∧ cs ≤ r ∧ r < cs + min bs.length size ∧ r < size then
    bs.getD (r - cs) 0
  else 0

/-! Concrete fixtures used to instantiate the universally quantified
theorems below on explicit inputs. -/

/-- File system on which no file exists. -/
def fsEmpty : FileSys := ⟨fun _ => false, fun _ => false⟩

/-- File system on which every file exists in both directories. -/
def fsFull : FileSys := ⟨fun _ => true, fun _ => true⟩

/-- File system holding only `b.png`, in the processed directory. -/
def fsOnlyBackup : FileSys :=
  ⟨fun _ => false, fun n => n = "b.png"⟩

/-- A sub-band carrying no signal. -/
def quietBand : BlindInput := ⟨0, 0, fun _ _ => 0⟩

/-- A 4×4 sub-band saturated with strong coefficients: the recovered
2×2 matrix is all 12s (from coefficient 1250), occupancy 100 %, and each
uint8-wrapped square is 144, so the mean signal 144 passes the floor. -/
def loudBand : BlindInput := ⟨4, 4, fun _ _ => 1250⟩

/-- Environment with a parseable sidecar of text kind and nothing else. -/
def envSidecarText : ExtractEnv :=
  ⟨"img.png", fsEmpty, some ⟨"text", none, none, some ("hello")⟩, none, false, quietBand, "e.png"⟩

/-- Environment with a sidecar of image kind whose original display
copy resolves. -/
def envSidecarImage : ExtractEnv :=
  ⟨"img.png", fsFull, some ⟨"image", some ("/static/a.png"), some ("/static/b.png"), none⟩,
   none, false, quietBand, "e.png"⟩

/-- Environment with a sidecar of image kind where only the backup copy
resolves. -/
def envSidecarBackup : ExtractEnv :=
  ⟨"img.png", fsOnlyBackup, some ⟨"image", some ("/static/a.png"), some ("/static/b.png"), none⟩,
   none, false, quietBand, "e.png"⟩

/-- Environment with no metadata anywhere, a readable image and a loud
sub-band, so only blind extraction fires. -/
def envBlindLoud : ExtractEnv :=
  ⟨"img.png", fsEmpty, none, none, true, loudBand, "e.png"⟩

/-- Environment with no metadata, a readable image and a quiet
sub-band: every recovery path misses. -/
def envAllMiss : ExtractEnv :=
  ⟨"img.png", fsEmpty, none, none, true, quietBand, "e.png"⟩

/-- Environment with no metadata and an unreadable image file. -/
def envUnreadable : ExtractEnv :=
  ⟨"img.png", fsEmpty, none, none, false, quietBand, "e.png"⟩

/-- Prepare-phase environment where every path exists and decodes. -/
def prepAllOk : PrepareEnv := ⟨fun _ => true, fun _ => true⟩

/-- Prepare-phase environment where paths exist but never decode. -/
def prepNoDecode : PrepareEnv := ⟨fun _ => true, fun _ => false⟩

end InvisibleWatermark

namespace InvisibleWatermark

/-! Helper lemmas shared by the claim theorems. -/

/-- An early return of the sidecar step always reports a detection with
success, at confidence 0.99 or 0.95. -/
theorem sidecarStep_inl (env : ExtractEnv) (r r' : ExtractResult)
    (h : sidecarStep env r = .inl r') :
    r'.detected = true ∧ r'.success = true ∧
      (r'.confidence = 99/100 ∨ r'.confidence = 95/100) := by
  unfold sidecarStep at h
  rcases hm : env.sidecar with _ | m
  · rw [hm] at h; dsimp only at h; cases h
  · rw [hm] at h; dsimp only at h
    by_cases h1 : m.kind = "image"
    · rw [if_pos h1] at h
      split_ifs at h <;> cases h <;> simp
    · rw [if_neg h1] at h
      by_cases h2 : m.kind = "text"
      · rw [if_pos h2] at h; cases h; simp
      · rw [if_neg h2] at h; cases h

/-- Falling through the sidecar step preserves the success, detection,
confidence and message fields of the result dictionary. -/
theorem sidecarStep_inr (env : ExtractEnv) (r r' : ExtractResult)
    (h : sidecarStep env r = .inr r') :
    r'.success = r.success ∧ r'.detected = r.detected ∧
      r'.confidence = r.confidence ∧ r'.message = r.message := by
  unfold sidecarStep at h
  rcases hm : env.sidecar with _ | m
  · rw [hm] at h; dsimp only at h; cases h; exact ⟨rfl, rfl, rfl, rfl⟩
  · rw [hm] at h; dsimp only at h
    by_cases h1 : m.kind = "image"
    · rw [if_pos h1] at h
      split_ifs at h <;> cases h <;> exact ⟨rfl, rfl, rfl, rfl⟩
    · rw [if_neg h1] at h
      by_cases h2 : m.kind = "text"
      · rw [if_pos h2] at h; cases h
      · rw [if_neg h2] at h; cases h; exact ⟨rfl, rfl, rfl, rfl⟩

/-- An early return of the trailer step always reports a detection with
success, at confidence 0.95 or 0.9. -/
theorem trailerStep_inl (env : ExtractEnv) (r r' : ExtractResult)
    (h : trailerStep env r = .inl r') :
    r'.detected = true ∧ r'.success = true ∧
      (r'.confidence = 95/100 ∨ r'.confidence = 9/10) := by
  unfold trailerStep at h
  rcases hm : env.trailer with _ | m
  · rw [hm] at h; dsimp only at h; cases h
  · rw [hm] at h; dsimp only at h
    by_cases h1 : m.kind = "image"
    · rw [if_pos h1] at h
      split_ifs at h <;> cases h <;> simp
    · rw [if_neg h1] at h
      by_cases h2 : m.kind = "text"
      · rw [if_pos h2] at h; cases h; simp
      · rw [if_neg h2] at h
        rcases hu : m.imageUrl with _ | u
        · rw [hu] at h; dsimp only at h
          rcases ht : m.text with _ | t
          · rw [ht] at h; dsimp only at h; cases h
          · rw [ht] at h; dsimp only at h
            split_ifs at h <;> cases h <;> simp
        · rw [hu] at h; dsimp only at h
          split_ifs at h <;> cases h <;> simp

/-- Falling through the trailer step preserves the success, detection,
confidence and message fields of the result dictionary. -/
theorem trailerStep_inr (env : ExtractEnv) (r r' : ExtractResult)
    (h : trailerStep env r = .inr r') :
    r'.success = r.success ∧ r'.detected = r.detected ∧
      r'.confidence = r.confidence ∧ r'.message = r.message := by
  unfold trailerStep at h
  rcases hm : env.trailer with _ | m
  · rw [hm] at h; dsimp only at h; cases h; exact ⟨rfl, rfl, rfl, rfl⟩
  · rw [hm] at h; dsimp only at h
    by_cases h1 : m.kind = "image"
    · rw [if_pos h1] at h
      split_ifs at h <;> cases h <;> exact ⟨rfl, rfl, rfl, rfl⟩
    · rw [if_neg h1] at h
      by_cases h2 : m.kind = "text"
      · rw [if_pos h2] at h; cases h
      · rw [if_neg h2] at h
        rcases hu : m.imageUrl with _ | u
        · rw [hu] at h; dsimp only at h
          rcases ht : m.text with _ | t
          · rw [ht] at h; dsimp only at h; cases h; exact ⟨rfl, rfl, rfl, rfl⟩
          · rw [ht] at h; dsimp only at h
            split_ifs at h <;> cases h <;> exact ⟨rfl, rfl, rfl, rfl⟩
        · rw [hu] at h; dsimp only at h
          split_ifs at h <;> cases h <;> exact ⟨rfl, rfl, rfl, rfl⟩

/-- The blind confidence is between 0 and 0.8. -/
theorem blindConfidence_bounds (b : BlindInput) :
    0 ≤ blindConfidence b ∧ blindConfidence b ≤ 4/5 := by
  unfold blindConfidence
  refine ⟨le_min (by norm_num) ?_, min_le_left _ _⟩
  positivity

/-- The haar LL coefficients of a (nonnegative) pixel matrix are
nonnegative. -/
theorem haarLL_nonneg (x : ℕ → ℕ → ℕ) (i j : ℕ) : 0 ≤ haarLL x i j := by
  unfold haarLL
  positivity

/-- The centred read window stays inside the sub-band rows. -/
theorem hOff_add_lt (b : BlindInput) (i : ℕ) (hi : i < wmSize b.llh b.llw) :
    hOff b + i < b.llh := by
  unfold hOff wmSize at *
  omega

/-- The centred read window stays inside the sub-band columns. -/
theorem wOff_add_lt (b : BlindInput) (j : ℕ) (hj : j < wmSize b.llh b.llw) :
    wOff b + j < b.llw := by
  unfold wOff wmSize at *
  omega

/-- Every cell recovered from the saturated fixture band is 12. -/
theorem extractedWM_loudBand (i j : ℕ) (hi : i < 2) (hj : j < 2) :
    extractedWM loudBand i j = 12 := by
  simp only [extractedWM, loudBand, wmSize, hOff, wOff, byteOfCoeff, alpha]
  norm_num
  split_ifs with hcond
  · rfl
  · omega

/-- All four cells of the saturated fixture band are nonzero. -/
theorem nonZeroCount_loudBand : nonZeroCount loudBand = 4 := by
  unfold nonZeroCount
  rw [show cellIdx (wmSize loudBand.llh loudBand.llw) = {(0,0),(0,1),(1,0),(1,1)} from by decide]
  rw [Finset.filter_insert, Finset.filter_insert, Finset.filter_insert,
      Finset.filter_singleton]
  rw [if_pos (by rw [extractedWM_loudBand 0 0 (by omega) (by omega)]; norm_num),
      if_pos (by rw [extractedWM_loudBand 0 1 (by omega) (by omega)]; norm_num),
      if_pos (by rw [extractedWM_loudBand 1 0 (by omega) (by omega)]; norm_num),
      if_pos (by rw [extractedWM_loudBand 1 1 (by omega) (by omega)]; norm_num)]
  decide

/-- Total wrapped squared signal of the saturated fixture band:
four cells of 12² % 256 = 144. -/
theorem signalPower_loudBand : signalPower loudBand = 576 := by
  unfold signalPower
  rw [show cellIdx (wmSize loudBand.llh loudBand.llw) = {(0,0),(0,1),(1,0),(1,1)} from by decide]
  rw [Finset.sum_insert (by decide), Finset.sum_insert (by decide),
      Finset.sum_insert (by decide), Finset.sum_singleton]
  dsimp only
  rw [extractedWM_loudBand 0 0 (by omega) (by omega),
      extractedWM_loudBand 0 1 (by omega) (by omega),
      extractedWM_loudBand 1 0 (by omega) (by omega),
      extractedWM_loudBand 1 1 (by omega) (by omega)]
  norm_num

/-- Mean wrapped squared signal of the saturated fixture band. -/
theorem averageSignal_loudBand : averageSignal loudBand = 144 := by
  simp only [averageSignal]
  rw [show wmSize loudBand.llh loudBand.llw = 2 from by decide, signalPower_loudBand]
  norm_num

/-- The code's wrapped average never exceeds the spec-worded mean
squared value: each uint8-wrapped square is at most the true square. -/
theorem averageSignal_le_spec (b : BlindInput) :
    averageSignal b ≤ specAverageSignal b := by
  have hle : (signalPower b : ℚ) ≤ (specSignalPower b : ℚ) := by
    have h := Finset.sum_le_sum
      (f := fun (p : ℕ × ℕ) => extractedWM b p.1 p.2 ^ 2 % 256)
      (g := fun (p : ℕ × ℕ) => extractedWM b p.1 p.2 ^ 2)
      (s := cellIdx (wmSize b.llh b.llw))
      (fun p _ => Nat.mod_le _ _)
    exact_mod_cast h
  simp only [averageSignal, specAverageSignal]
  split_ifs with hpos
  · have hc : (0:ℚ) < ((wmSize b.llh b.llw * wmSize b.llh b.llw : ℕ) : ℚ) := by
      exact_mod_cast hpos
    exact (div_le_div_right hc).mpr hle
  · exact le_refl _

/-- The saturated fixture band passes both blind detection thresholds. -/
theorem blindHit_loudBand : blindHit loudBand = true := by
  simp only [blindHit]
  rw [show wmSize loudBand.llh loudBand.llw = 2 from by decide,
      nonZeroCount_loudBand, averageSignal_loudBand]
  rw [decide_eq_true (by norm_num), decide_eq_true (by norm_num)]
  rfl

/-- The silent fixture band recovers no nonzero cell. -/
theorem nonZeroCount_quietBand : nonZeroCount quietBand = 0 := by
  unfold nonZeroCount
  rw [show cellIdx (wmSize quietBand.llh quietBand.llw) = ∅ from by decide]
  simp

/-- The silent fixture band fails the blind detection thresholds. -/
theorem blindHit_quietBand : blindHit quietBand = false := by
  simp only [blindHit]
  rw [show wmSize quietBand.llh quietBand.llw = 0 from by decide,
      nonZeroCount_quietBand]
  rw [decide_eq_false (by norm_num), Bool.false_and]

/-- The per-cell increment is nonnegative whenever the original
coefficient is. -/
theorem addValue_nonneg (cell : ℕ) (orig : ℚ) (h : 0 ≤ orig) :
    0 ≤ addValue cell orig := by
  unfold addValue effective_alpha alpha
  exact le_min (by positivity) (by linarith)

/-- Value of `centerStart` below the matrix size. -/
theorem centerStart_eq_of_lt {size len : ℕ} (h : len < size) :
    centerStart size len = (size - len) / 2 :=
  if_pos h

/-- Value of `centerStart` at or above the matrix size. -/
theorem centerStart_eq_of_ge {size len : ℕ} (h : size ≤ len) :
    centerStart size len = 0 :=
  if_neg (by omega)

/-- Closed form of `textMatrix` with its local bindings expanded. -/
theorem textMatrix_eq (s : String) (max_size r c : ℕ) :
    textMatrix s max_size r c =
      if r = c ∧ centerStart (min max_size 32) (textBytes s).length ≤ r ∧
          r < centerStart (min max_size 32) (textBytes s).length +
            min (textBytes s).length (min max_size 32) ∧
          r < min max_size 32 then
        (textBytes s).getD (r - centerStart (min max_size 32) (textBytes s).length) 0
      else 0 :=
  rfl

/-- Reading a list at a shifted-then-unshifted index. -/
theorem getD_center (bs : List ℕ) (a i : ℕ) :
    bs.getD (a + i - a) 0 = bs.getD i 0 := by
  have h : a + i - a = i := by omega
  rw [h]

/-- C1 (counterexample): with sub-band value 100 and payload cell value
255, the embedding produces 100 + min(50·255, 100·0.2) = 120, not
100 + strength·255 = 25600, refuting "adds strength × cellValue". -/
theorem embedLL_strength_counterexample :
    embedLL 2 2 (fun _ _ => (100:ℚ)) 1 1 (fun _ _ => 255) 0 0 = 120 ∧
      embedLL 2 2 (fun _ _ => (100:ℚ)) 1 1 (fun _ _ => 255) 0 0 ≠ 100 + alpha * 255 := by
  constructor
  · norm_num [embedLL, addValue, effective_alpha, alpha]
  · norm_num [embedLL, addValue, effective_alpha, alpha]

/-- C1 (amended): inside the centred window, a nonzero payload cell adds
`min(effective_alpha × cellValue, 0.2 × coefficient)` (with
`effective_alpha = strength/2 = 50`) to the sub-band coefficient; a
zero-valued cell and every out-of-window cell are left untouched; and on
nonnegative coefficients embedding never lowers a value. -/
theorem embedLL_add_rule (llh llw wmh wmw r c : ℕ) (ll : ℕ → ℕ → ℚ)
    (wm : ℕ → ℕ → ℕ) :
    (((llh - wmh)/2 ≤ r ∧ r < min llh ((llh - wmh)/2 + wmh) ∧
      (llw - wmw)/2 ≤ c ∧ c < min llw ((llw - wmw)/2 + wmw)) →
      (0 < wm (r - (llh - wmh)/2) (c - (llw - wmw)/2) →
        embedLL llh llw ll wmh wmw wm r c
          = ll r c + min (effective_alpha * wm (r - (llh - wmh)/2) (c - (llw - wmw)/2))
              (ll r c * (1/5))) ∧
      (wm (r - (llh - wmh)/2) (c - (llw - wmw)/2) = 0 →
        embedLL llh llw ll wmh wmw wm r c = ll r c)) ∧
    (¬((llh - wmh)/2 ≤ r ∧ r < min llh ((llh - wmh)/2 + wmh) ∧
      (llw - wmw)/2 ≤ c ∧ c < min llw ((llw - wmw)/2 + wmw)) →
      embedLL llh llw ll wmh wmw wm r c = ll r c) ∧
    (0 ≤ ll r c → ll r c ≤ embedLL llh llw ll wmh wmw wm r c) := by
  refine ⟨fun hw => ⟨fun hpos => ?_, fun hz => ?_⟩, fun hw => ?_, fun h0 => ?_⟩
  · simp only [embedLL]
    rw [if_pos hw, if_pos hpos]
    rfl
  · simp only [embedLL]
    rw [if_pos hw, if_neg (by omega)]
  · simp only [embedLL]
    rw [if_neg hw]
  · simp only [embedLL]
    split_ifs with h1 h2
    · have := addValue_nonneg (wm (r - (llh - wmh)/2) (c - (llw - wmw)/2)) (ll r c) h0
      linarith
    · exact le_refl _
    · exact le_refl _

/-- C1 (witness): the amended rule evaluated at the counterexample cell:
the coefficient rises from 100 to 100 + min(12750, 20) = 120. -/
theorem embedLL_add_rule_witness :
    embedLL 2 2 (fun _ _ => (100:ℚ)) 1 1 (fun _ _ => 255) 0 0
      = 100 + min (effective_alpha * 255) (100 * (1/5)) ∧
    (100:ℚ) ≤ embedLL 2 2 (fun _ _ => (100:ℚ)) 1 1 (fun _ _ => 255) 0 0 := by
  constructor
  · have h := ((embedLL_add_rule 2 2 1 1 0 0 (fun _ _ => 100) (fun _ _ => 255)).1
      (by omega)).1 (by norm_num)
    simpa using h
  · have h := (embedLL_add_rule 2 2 1 1 0 0 (fun _ _ => 100) (fun _ _ => 255)).2.2
      (by norm_num)
    simpa using h

/-- C5 (counterexample): with the sidecar metadata write failing and the
trailer write succeeding, the persistence phase raises and
`embed_watermark` does not return the output path, refuting "never fails
the overall embed operation". -/
theorem persist_sidecar_counterexample :
    embedReturn false true ("watermarked.png") = .error () ∧
      embedReturn false true ("watermarked.png") ≠ .ok ("watermarked.png") := by
  refine ⟨rfl, fun h => ?_⟩
  rw [show embedReturn false true ("watermarked.png") = .error () from rfl] at h
  exact Except.noConfusion h

/-- C5 (amended): only the trailer write is best-effort: whatever the
trailer write outcome, embed still returns the output path when the
sidecar write succeeds, and raises when the sidecar write fails. -/
theorem persist_trailer_best_effort (trailerOk : Bool) (p : String) :
    embedReturn true trailerOk p = .ok p ∧
      embedReturn false trailerOk p = .error () := by
  cases trailerOk <;> exact ⟨rfl, rfl⟩

/-- C7: a non-empty, existing, decodable reference image always yields
the image payload kind even when a text is supplied; an undecodable
reference image falls back to the text kind, or to the "none" kind when
no text was supplied. -/
theorem prepare_image_priority (env : PrepareEnv) (t p : String) :
    (p ≠ "" → env.pathExists p = true → env.imreadOk p = true →
      prepareKind env (some t) (some p) = "image") ∧
    (env.imreadOk p = false → prepareKind env (some t) (some p) = "text") ∧
    (env.imreadOk p = false → prepareKind env none (some p) = "none") := by
  refine ⟨fun hp hex hok => ?_, fun hbad => ?_, fun hbad => ?_⟩
  · unfold prepareKind
    dsimp only
    rw [if_pos ⟨hp, hex⟩, if_pos hok]
  · unfold prepareKind prepareKindText
    dsimp only
    split_ifs with h1 h2 <;> simp_all
  · unfold prepareKind prepareKindText
    dsimp only
    split_ifs with h1 h2 <;> simp_all

/-- C7 (witness): concrete selections for a decodable and an
undecodable reference image. -/
theorem prepare_image_priority_witness :
    prepareKind prepAllOk (some ("hello")) (some ("wm.png")) = "image" ∧
    prepareKind prepNoDecode (some ("hello")) (some ("wm.png")) = "text" ∧
    prepareKind prepNoDecode none (some ("wm.png")) = "none" :=
  ⟨(prepare_image_priority prepAllOk ("hello") ("wm.png")).1 (by decide) rfl rfl,
   (prepare_image_priority prepNoDecode ("hello") ("wm.png")).2.1 rfl,
   (prepare_image_priority prepNoDecode ("hello") ("wm.png")).2.2 rfl⟩

/-- C8: the text payload matrix places UTF-8 byte `i` on the diagonal at
row `(size − byteLength)/2 + i` when the byte sequence is shorter than
the matrix side 32, keeps bytes with index below the side when the text
is longer (dropping the rest), zeroes every other cell, and is a pure
function of the text. -/
theorem text_matrix_layout (s : String) (i r c : ℕ) :
    ((textBytes s).length < 32 → i < (textBytes s).length →
      textMatrix s 32 ((32 - (textBytes s).length)/2 + i)
        ((32 - (textBytes s).length)/2 + i) = (textBytes s).getD i 0) ∧
    (r ≠ c → textMatrix s 32 r c = 0) ∧
    ((textBytes s).length < 32 →
      (r < (32 - (textBytes s).length)/2 ∨
        (32 - (textBytes s).length)/2 + (textBytes s).length ≤ r) →
      textMatrix s 32 r r = 0) ∧
    (32 ≤ (textBytes s).length → r < 32 →
      textMatrix s 32 r r = (textBytes s).getD r 0) ∧
    (32 ≤ r → textMatrix s 32 r c = 0) ∧
    (∀ t, t = s → ∀ r' c', textMatrix t 32 r' c' = textMatrix s 32 r' c') := by
  refine ⟨fun hlen hi => ?_, fun hne => ?_, fun hlen hout => ?_,
    fun hlen hr => ?_, fun hr => ?_, fun t ht r' c' => by rw [ht]⟩
  · rw [textMatrix_eq]
    simp only [min_self, centerStart_eq_of_lt hlen]
    rw [if_pos ⟨trivial, Nat.le_add_right _ _, by omega, by omega⟩]
    rw [getD_center]
  · rw [textMatrix_eq]
    exact if_neg (fun h => hne h.1)
  · rw [textMatrix_eq]
    simp only [min_self, centerStart_eq_of_lt hlen]
    refine if_neg ?_
    rintro ⟨-, hge, hlt, -⟩
    rcases hout with h | h <;> omega
  · rw [textMatrix_eq]
    simp only [min_self, centerStart_eq_of_ge hlen]
    rw [if_pos ⟨trivial, Nat.zero_le _, by omega, hr⟩]
    rw [Nat.sub_zero]
  · rw [textMatrix_eq]
    refine if_neg ?_
    rintro ⟨-, -, -, hlt⟩
    simp only [min_self] at hlt
    omega

/-- C8 (witness): encoding "ab" (UTF-8 bytes 97, 98) centres the two
bytes at diagonal rows 15 and 16 of the 32×32 matrix. -/
theorem text_matrix_layout_witness :
    textMatrix ("ab") 32 15 15 = 97 ∧ textMatrix ("ab") 32 15 16 = 0 := by
  have hb : textBytes ("ab") = [97, 98] := by
    simp [textBytes, String.toUTF8]
    decide
  have h1 := (text_matrix_layout ("ab") 0 15 16).1
    (by rw [hb]; decide) (by rw [hb]; decide)
  rw [hb] at h1
  norm_num at h1
  exact ⟨h1, (text_matrix_layout ("ab") 0 15 16).2.1 (by decide)⟩

/-- C2: the three recovery sources are evaluated in strict order with
the first early return winning; a sidecar hit carries confidence 0.99
(0.95 when only the backup copy resolves), a trailer hit 0.95 (0.90 for
backup-only), with the same values for the text kinds. -/
theorem extract_priority_and_confidence (env : ExtractEnv) :
    (∀ r, sidecarStep env initResult = .inl r →
      extract_watermark env = r ∧ r.detected = true ∧
        (r.confidence = 99/100 ∨ r.confidence = 95/100)) ∧
    (∀ r₁ r, sidecarStep env initResult = .inr r₁ → trailerStep env r₁ = .inl r →
      extract_watermark env = r ∧ r.detected = true ∧
        (r.confidence = 95/100 ∨ r.confidence = 9/10)) ∧
    (∀ r₁ r₂, sidecarStep env initResult = .inr r₁ → trailerStep env r₁ = .inr r₂ →
      extract_watermark env = blindStep env r₂) ∧
    (∀ m, env.sidecar = some m → m.kind = "image" → m.imageUrl.getD ("") ≠ "" →
      env.fs.staticExists (stripStatic (m.imageUrl.getD (""))) = true →
      (extract_watermark env).detected = true ∧
        (extract_watermark env).confidence = 99/100) ∧
    (∀ m, env.sidecar = some m → m.kind = "image" → m.imageUrl.getD ("") ≠ "" →
      env.fs.staticExists (stripStatic (m.imageUrl.getD (""))) = false →
      m.backupUrl.getD ("") ≠ "" → backupResolves env.fs (m.backupUrl.getD ("")) = true →
      (extract_watermark env).detected = true ∧
        (extract_watermark env).confidence = 95/100) ∧
    (∀ m, env.sidecar = some m → m.kind = "text" →
      (extract_watermark env).detected = true ∧
        (extract_watermark env).confidence = 99/100) ∧
    (∀ r₁ m, sidecarStep env initResult = .inr r₁ → env.trailer = some m →
      m.kind = "image" → m.imageUrl.getD ("") ≠ "" →
      env.fs.staticExists (stripStatic (m.imageUrl.getD (""))) = true →
      (extract_watermark env).detected = true ∧
        (extract_watermark env).confidence = 95/100) ∧
    (∀ r₁ m, sidecarStep env initResult = .inr r₁ → env.trailer = some m →
      m.kind = "image" → m.imageUrl.getD ("") ≠ "" →
      env.fs.staticExists (stripStatic (m.imageUrl.getD (""))) = false →
      m.backupUrl.getD ("") ≠ "" → backupResolves env.fs (m.backupUrl.getD ("")) = true →
      (extract_watermark env).detected = true ∧
        (extract_watermark env).confidence = 9/10) ∧
    (∀ r₁ m, sidecarStep env initResult = .inr r₁ → env.trailer = some m →
      m.kind = "text" →
      (extract_watermark env).detected = true ∧
        (extract_watermark env).confidence = 95/100) := by
  refine ⟨fun r h => ?_, fun r₁ r h1 h2 => ?_, fun r₁ r₂ h1 h2 => ?_,
    fun m hm hk hu hx => ?_, fun m hm hk hu hx hb hres => ?_, fun m hm hk => ?_,
    fun r₁ m h1 hm hk hu hx => ?_, fun r₁ m h1 hm hk hu hx hb hres => ?_,
    fun r₁ m h1 hm hk => ?_⟩
  · have hflags := sidecarStep_inl env initResult r h
    exact ⟨by unfold extract_watermark; rw [h], hflags.1, hflags.2.2⟩
  · have hflags := trailerStep_inl env r₁ r h2
    exact ⟨by unfold extract_watermark; rw [h1]; dsimp only; rw [h2], hflags.1, hflags.2.2⟩
  · unfold extract_watermark
    rw [h1]
    dsimp only
    rw [h2]
  · unfold extract_watermark sidecarStep
    rw [hm]
    dsimp only
    rw [if_pos hk, if_pos hu, if_pos hx]
    exact ⟨rfl, rfl⟩
  · unfold extract_watermark sidecarStep
    rw [hm]
    dsimp only
    rw [if_pos hk, if_pos hu, if_neg (by simp [hx]), if_pos ⟨hb, hres⟩]
    exact ⟨rfl, rfl⟩
  · unfold extract_watermark sidecarStep
    rw [hm]
    dsimp only
    rw [if_neg (by rw [hk]; decide), if_pos hk]
    exact ⟨rfl, rfl⟩
  · unfold extract_watermark
    rw [h1]
    dsimp only
    unfold trailerStep
    rw [hm]
    dsimp only
    rw [if_pos hk, if_pos hu, if_pos hx]
    exact ⟨rfl, rfl⟩
  · unfold extract_watermark
    rw [h1]
    dsimp only
    unfold trailerStep
    rw [hm]
    dsimp only
    rw [if_pos hk, if_pos hu, if_neg (by simp [hx]), if_pos ⟨hb, hres⟩]
    exact ⟨rfl, rfl⟩
  · unfold extract_watermark
    rw [h1]
    dsimp only
    unfold trailerStep
    rw [hm]
    dsimp only
    rw [if_neg (by rw [hk]; decide), if_pos hk]
    exact ⟨rfl, rfl⟩

/-- C2 (witness): a sidecar of image kind with a resolvable original
display copy is detected at confidence 0.99. -/
theorem extract_priority_witness :
    (extract_watermark envSidecarImage).detected = true ∧
      (extract_watermark envSidecarImage).confidence = 99/100 :=
  (extract_priority_and_confidence envSidecarImage).2.2.2.1
    ⟨"image", some ("/static/a.png"), some ("/static/b.png"), none⟩
    rfl rfl (by decide) rfl

/-- C6: on a readable image with no positive detection, recovery reports
success with zero confidence and the no-watermark message; a failed
recovery (success = false) happens only when the image cannot be read. -/
theorem negative_result_policy (env : ExtractEnv) :
    (env.imgReadable = true → (extract_watermark env).detected = false →
      (extract_watermark env).success = true ∧
      (extract_watermark env).confidence = 0 ∧
      (extract_watermark env).message = "未检测到有效的隐式水印") ∧
    ((extract_watermark env).success = false → env.imgReadable = false) := by
  constructor
  · intro hread hdet
    rcases h1 : sidecarStep env initResult with r | r₁
    · have hx : extract_watermark env = r := by unfold extract_watermark; rw [h1]
      rw [hx, (sidecarStep_inl env initResult r h1).1] at hdet
      cases hdet
    · rcases h2 : trailerStep env r₁ with r | r₂
      · have hx : extract_watermark env = r := by
          unfold extract_watermark; rw [h1]; dsimp only; rw [h2]
        rw [hx, (trailerStep_inl env r₁ r h2).1] at hdet
        cases hdet
      · have hx : extract_watermark env = blindStep env r₂ := by
          unfold extract_watermark; rw [h1]; dsimp only; rw [h2]
        have hfr1 := sidecarStep_inr env initResult r₁ h1
        have hfr2 := trailerStep_inr env r₁ r₂ h2
        rw [hx] at hdet ⊢
        unfold blindStep at hdet ⊢
        rw [if_pos hread] at hdet ⊢
        by_cases hbl : blindHit env.blind = true
        · rw [if_pos hbl] at hdet
          cases hdet
        · rw [if_neg hbl]
          refine ⟨rfl, ?_, rfl⟩
          show r₂.confidence = 0
          rw [hfr2.2.2.1, hfr1.2.2.1]
          rfl
  · intro hfail
    by_contra hcon
    rw [Bool.not_eq_false] at hcon
    rcases h1 : sidecarStep env initResult with r | r₁
    · have hx : extract_watermark env = r := by unfold extract_watermark; rw [h1]
      rw [hx, (sidecarStep_inl env initResult r h1).2.1] at hfail
      cases hfail
    · rcases h2 : trailerStep env r₁ with r | r₂
      · have hx : extract_watermark env = r := by
          unfold extract_watermark; rw [h1]; dsimp only; rw [h2]
        rw [hx, (trailerStep_inl env r₁ r h2).2.1] at hfail
        cases hfail
      · have hx : extract_watermark env = blindStep env r₂ := by
          unfold extract_watermark; rw [h1]; dsimp only; rw [h2]
        rw [hx] at hfail
        unfold blindStep at hfail
        rw [if_pos hcon] at hfail
        by_cases hbl : blindHit env.blind = true
        · rw [if_pos hbl] at hfail
          cases hfail
        · rw [if_neg hbl] at hfail
          cases hfail

/-- C6 (witness): with no metadata and a quiet readable image, recovery
returns success, zero confidence and the no-watermark message. -/
theorem negative_result_policy_witness :
    (extract_watermark envAllMiss).success = true ∧
      (extract_watermark envAllMiss).confidence = 0 ∧
      (extract_watermark envAllMiss).message = "未检测到有效的隐式水印" := by
  have hdet : (extract_watermark envAllMiss).detected = false := by
    unfold extract_watermark
    rw [show sidecarStep envAllMiss initResult = .inr initResult from rfl]
    dsimp only
    rw [show trailerStep envAllMiss initResult = .inr initResult from rfl]
    dsimp only
    unfold blindStep
    rw [if_pos (show envAllMiss.imgReadable = true from rfl)]
    rw [if_neg (by simp [show blindHit envAllMiss.blind = false from blindHit_quietBand])]
  exact (negative_result_policy envAllMiss).1 rfl hdet

/-- C9: the recovery result is a total function of its environment, with
all fields present; a detection is always reported as successful and the
confidence always lies in [0, 1]. -/
theorem extract_result_invariant (env : ExtractEnv) :
    ((extract_watermark env).detected = true →
      (extract_watermark env).success = true) ∧
    0 ≤ (extract_watermark env).confidence ∧
    (extract_watermark env).confidence ≤ 1 := by
  rcases h1 : sidecarStep env initResult with r | r₁
  · have hi := sidecarStep_inl env initResult r h1
    have hx : extract_watermark env = r := by unfold extract_watermark; rw [h1]
    rw [hx]
    refine ⟨fun _ => hi.2.1, ?_, ?_⟩ <;>
      rcases hi.2.2 with hc | hc <;> rw [hc] <;> norm_num
  · rcases h2 : trailerStep env r₁ with r | r₂
    · have hi := trailerStep_inl env r₁ r h2
      have hx : extract_watermark env = r := by
        unfold extract_watermark; rw [h1]; dsimp only; rw [h2]
      rw [hx]
      refine ⟨fun _ => hi.2.1, ?_, ?_⟩ <;>
        rcases hi.2.2 with hc | hc <;> rw [hc] <;> norm_num
    · have hx : extract_watermark env = blindStep env r₂ := by
        unfold extract_watermark; rw [h1]; dsimp only; rw [h2]
      have hfr1 := sidecarStep_inr env initResult r₁ h1
      have hfr2 := trailerStep_inr env r₁ r₂ h2
      have hconf2 : r₂.confidence = 0 := by
        rw [hfr2.2.2.1, hfr1.2.2.1]; rfl
      have hdet2 : r₂.detected = false := by
        rw [hfr2.2.1, hfr1.2.1]; rfl
      rw [hx]
      unfold blindStep
      by_cases hread : env.imgReadable = true
      · rw [if_pos hread]
        by_cases hbl : blindHit env.blind = true
        · rw [if_pos hbl]
          have hbc := blindConfidence_bounds env.blind
          exact ⟨fun _ => rfl, hbc.1, le_trans hbc.2 (by norm_num)⟩
        · rw [if_neg hbl]
          refine ⟨fun _ => rfl, ?_, ?_⟩
          · show (0:ℚ) ≤ r₂.confidence
            rw [hconf2]
          · show r₂.confidence ≤ 1
            rw [hconf2]
            norm_num
      · rw [if_neg hread]
        refine ⟨fun hdd => ?_, ?_, ?_⟩
        · have hdd2 : r₂.detected = true := hdd
          rw [hdet2] at hdd2
          cases hdd2
        · show (0:ℚ) ≤ r₂.confidence
          rw [hconf2]
        · show r₂.confidence ≤ 1
          rw [hconf2]
          norm_num

/-- C9 (witness): a detecting environment reports success, and its
confidence obeys the bounds. -/
theorem extract_result_invariant_witness :
    (extract_watermark envSidecarText).success = true ∧
      0 ≤ (extract_watermark envSidecarText).confidence := by
  have hdet : (extract_watermark envSidecarText).detected = true := by decide
  exact ⟨(extract_result_invariant envSidecarText).1 hdet,
         (extract_result_invariant envSidecarText).2.1⟩

/-- C3: blind extraction declares a positive detection only if at least
25 % of the recovered cells are nonzero and the average signal (the
uint8-wrapped squares the code computes, and a fortiori the true mean
squared recovered value) exceeds the signal floor 50; a positive
detection reports confidence `min(0.8, nonzeroCount / totalCells)`,
hence never above 0.8. -/
theorem blind_detection_thresholds (env : ExtractEnv) (r : ExtractResult)
    (hread : env.imgReadable = true)
    (hdet : (blindStep env r).detected = true) :
    wmSize env.blind.llh env.blind.llw * wmSize env.blind.llh env.blind.llw
        ≤ 4 * nonZeroCount env.blind ∧
    50 < averageSignal env.blind ∧
    50 < specAverageSignal env.blind ∧
    (blindStep env r).confidence
      = min (4/5) ((nonZeroCount env.blind : ℚ)
          / ((wmSize env.blind.llh env.blind.llw
              * wmSize env.blind.llh env.blind.llw : ℕ) : ℚ)) ∧
    (blindStep env r).confidence ≤ 4/5 := by
  have hb : blindHit env.blind = true := by
    by_contra hbf
    rw [Bool.not_eq_true] at hbf
    unfold blindStep at hdet
    rw [if_pos hread, if_neg (by simp [hbf])] at hdet
    exact absurd hdet (by simp)
  have hsplit := hb
  simp only [blindHit, Bool.and_eq_true, decide_eq_true_eq] at hsplit
  refine ⟨?_, hsplit.2, lt_of_lt_of_le hsplit.2 (averageSignal_le_spec env.blind),
    ?_, ?_⟩
  · have h2 : ((wmSize env.blind.llh env.blind.llw
        * wmSize env.blind.llh env.blind.llw : ℕ) : ℚ)
        < 4 * (nonZeroCount env.blind : ℚ) := by linarith [hsplit.1]
    have h3 : wmSize env.blind.llh env.blind.llw
        * wmSize env.blind.llh env.blind.llw < 4 * nonZeroCount env.blind := by
      exact_mod_cast h2
    omega
  · unfold blindStep
    rw [if_pos hread, if_pos hb]
    rfl
  · unfold blindStep
    rw [if_pos hread, if_pos hb]
    exact (blindConfidence_bounds env.blind).2

/-- C3 (witness): the saturated fixture band detects with the signal
floor exceeded and confidence capped at 0.8. -/
theorem blind_detection_thresholds_witness :
    50 < averageSignal envBlindLoud.blind ∧
      (blindStep envBlindLoud initResult).confidence ≤ 4/5 := by
  have hdet : (blindStep envBlindLoud initResult).detected = true := by
    unfold blindStep
    rw [if_pos (show envBlindLoud.imgReadable = true from rfl)]
    rw [if_pos (show blindHit envBlindLoud.blind = true from blindHit_loudBand)]
  exact ⟨(blind_detection_thresholds envBlindLoud initResult rfl hdet).2.1,
         (blind_detection_thresholds envBlindLoud initResult rfl hdet).2.2.2.2⟩

/-- C4: over the haar sub-band of an image, a blind-recovered cell is
nonzero exactly when the coefficient magnitude exceeds `strength/2`, in
which case it equals `clamp(⌊coefficient/strength⌋, 0, 255)`; the
recovered matrix side is `min(32, subbandHeight/2, subbandWidth/2)`,
the read window is centred, and cells outside the window are zero. -/
theorem blind_cell_rule (h w : ℕ) (x : ℕ → ℕ → ℕ) (i j : ℕ) :
    (wmSize (h / 2) (w / 2) = min 32 (min (h / 2 / 2) (w / 2 / 2))) ∧
    (hOff (llOfImage h w x) = (h / 2 - wmSize (h / 2) (w / 2)) / 2) ∧
    (wOff (llOfImage h w x) = (w / 2 - wmSize (h / 2) (w / 2)) / 2) ∧
    (i < wmSize (h / 2) (w / 2) → j < wmSize (h / 2) (w / 2) →
      (alpha / 2 < |haarLL x (hOff (llOfImage h w x) + i)
          (wOff (llOfImage h w x) + j)| →
        extractedWM (llOfImage h w x) i j
          = (max 0 (min 255 ⌊haarLL x (hOff (llOfImage h w x) + i)
              (wOff (llOfImage h w x) + j) / alpha⌋)).toNat) ∧
      (|haarLL x (hOff (llOfImage h w x) + i)
          (wOff (llOfImage h w x) + j)| ≤ alpha / 2 →
        extractedWM (llOfImage h w x) i j = 0)) ∧
    (wmSize (h / 2) (w / 2) ≤ i ∨ wmSize (h / 2) (w / 2) ≤ j →
      extractedWM (llOfImage h w x) i j = 0) := by
  have hnn := haarLL_nonneg x (hOff (llOfImage h w x) + i)
    (wOff (llOfImage h w x) + j)
  refine ⟨rfl, rfl, rfl, fun hi hj => ⟨fun hgt => ?_, fun hle => ?_⟩,
    fun hd => ?_⟩
  · rw [abs_of_nonneg hnn] at hgt
    simp only [extractedWM, llOfImage] at hgt ⊢
    rw [if_pos ⟨hi, hj, hOff_add_lt (llOfImage h w x) i hi,
      wOff_add_lt (llOfImage h w x) j hj⟩]
    rw [if_pos hgt]
    rfl
  · rw [abs_of_nonneg hnn] at hle
    simp only [extractedWM, llOfImage] at hle ⊢
    rw [if_pos ⟨hi, hj, hOff_add_lt (llOfImage h w x) i hi,
      wOff_add_lt (llOfImage h w x) j hj⟩]
    rw [if_neg (not_lt.mpr hle)]
  · simp only [extractedWM]
    refine if_neg ?_
    rintro ⟨hi, hj, -, -⟩
    rcases hd with hx | hx
    · exact absurd hi (by simpa using not_lt.mpr hx)
    · exact absurd hj (by simpa using not_lt.mpr hx)

/-- C4 (witness): on a 4×4 image of constant pixel value 255, the single
recovered cell reads coefficient 510 and reports byte
`clamp(⌊510/100⌋, 0, 255) = 5`; the out-of-window cell (1,1) is zero. -/
theorem blind_cell_rule_witness :
    extractedWM (llOfImage 4 4 (fun _ _ => 255)) 0 0 = 5 ∧
      extractedWM (llOfImage 4 4 (fun _ _ => 255)) 1 1 = 0 := by
  constructor
  · have hcell := ((blind_cell_rule 4 4 (fun _ _ => 255) 0 0).2.2.2.1
      (by decide) (by decide)).1
      (by rw [abs_of_nonneg (haarLL_nonneg _ _ _)]
          simp only [haarLL, alpha]
          norm_num)
    rw [hcell]
    simp only [haarLL, alpha]
    norm_num
    rfl
  · exact (blind_cell_rule 4 4 (fun _ _ => 255) 1 1).2.2.2.2 (by decide)

/-- C10: the `alpha` argument of `embed_watermark` is ignored: two calls
differing only in it produce identical pixel data, and the persisted
metadata records the fixed engine strength 100. -/
theorem alpha_argument_ignored (a₁ a₂ : ℚ) (llh llw wmh wmw : ℕ)
    (ll : ℕ → ℕ → ℚ) (wm : ℕ → ℕ → ℕ) :
    embedWatermarkPixels a₁ llh llw ll wmh wmw wm
      = embedWatermarkPixels a₂ llh llw ll wmh wmw wm ∧
    metadataAlphaField a₁ = 100 :=
  ⟨rfl, rfl⟩

end InvisibleWatermark
